import Mathlib

/-!
Shallow embedding of the score-extraction pipeline implemented in
`app/utils/video_pipeline_benchmark.py`, together with proofs about the
Score Assembler (`finalize_scores_by_slotting`), the geometric outlier
filter (`filter_outliers`), the score-string sanitizer
(`sanitize_score_string`), the timestamp-to-frame-index conversion inside
`process_video_benchmarked`, and the statistics aggregator
(`calculate_statistics`).

Numbers that Python handles as floats are embedded as rationals (`ℚ`),
so all arithmetic in the model is exact; every value the pipeline
manipulates here is representable exactly in both worlds.
-/

namespace VideoPipeline

/-- Python `int(x)` applied to a float/rational: truncation toward zero. -/
def ratTrunc (q : ℚ) : ℤ :=
  if q < 0 then -⌊-q⌋ else ⌊q⌋

/-- Python 3 `round(x)` on a float/rational with no `ndigits` argument:
rounding half to even (banker's rounding). -/
def pyRound (q : ℚ) : ℤ :=
  if q - ⌊q⌋ < 1/2 then ⌊q⌋
  else if 1/2 < q - ⌊q⌋ then ⌊q⌋ + 1
  else if ⌊q⌋ % 2 = 0 then ⌊q⌋ else ⌊q⌋ + 1

/-- Fuel-driven helper for `numDigits`; the fuel is an upper bound on the
argument, so it never runs out. -/
def numDigitsAux : ℕ → ℕ → ℕ
  | 0, _ => 1
  | fuel + 1, n => if n < 10 then 1 else numDigitsAux fuel (n / 10) + 1

/-- Number of decimal digits of a natural number, i.e. Python
`len(str(n))` for `n ≥ 0` (`numDigits 0 = 1`, matching `len("0")`). -/
def numDigits (n : ℕ) : ℕ := numDigitsAux n n

/-- Python `len(str(int(v)))` for a nonnegative score value `v`: the
number of digits in the integer part. -/
def pyIntDigits (v : ℚ) : ℕ := numDigits (ratTrunc v).toNat

/-! ## The score-string sanitizer (`sanitize_score_string`) -/

/-- The character loop in `sanitize_score_string`: keep digit characters,
keep a decimal point only if no decimal point has been kept so far
(the Boolean is the Python `dot_found` flag). -/
def sanitizeLoop : List Char → Bool → List Char
  | [], _ => []
  | c :: cs, dotFound =>
    if c = '.' then
      if dotFound then sanitizeLoop cs dotFound
      else c :: sanitizeLoop cs true
    else if c.isDigit then c :: sanitizeLoop cs dotFound
    else sanitizeLoop cs dotFound

/-- Python `s.strip('.')`: drop every leading and trailing `'.'`. -/
def stripDots (cs : List Char) : List Char :=
  ((cs.dropWhile (fun c => c = '.')).reverse.dropWhile (fun c => c = '.')).reverse

/-- Source function `sanitize_score_string`: keep digits and at most one
decimal point, then strip leading/trailing decimal points. -/
def sanitize_score_string (s : String) : String :=
  if s = "" then ""
  else String.mk (stripDots (sanitizeLoop s.toList false))

/-- Written from the spec sentence for the sanitizer: the digit
characters of `s` in order, plus at most the first decimal point
encountered (later decimal points dropped). -/
def keepFirstDot (cs : List Char) : List Char :=
  (cs.takeWhile (fun c => c ≠ '.')).filter Char.isDigit ++
    match cs.dropWhile (fun c => c ≠ '.') with
    | [] => []
    | _ :: rest => '.' :: rest.filter Char.isDigit

/-- Written from the spec's words: keep the digit characters in order
plus at most the first decimal point, then strip leading and trailing
decimal points. Compared against `sanitize_score_string` in claim C5. -/
def sanitizeSpec (s : String) : String :=
  String.mk (stripDots (keepFirstDot s.toList))

/-! ## Parsing a sanitized score string (Python `float(...)`) -/

/-- Value of a decimal digit character. -/
def digitVal (c : Char) : ℕ := c.toNat - 48

/-- Natural number denoted by a list of decimal digit characters. -/
def digitsToNat (cs : List Char) : ℕ :=
  cs.foldl (fun a c => a * 10 + digitVal c) 0

/-- Models Python `float(s)` on the strings the pipeline feeds it:
digits with at most one decimal point (the output domain of
`sanitize_score_string`). Returns `none` where `float` raises
`ValueError`. The rational returned is the exact decimal value. -/
def pyFloatOfScore? (s : String) : Option ℚ :=
  if s.toList = [] then none
  else if ¬ (s.toList.all fun c => c.isDigit || c = '.') then none
  else if s.toList.dropWhile (fun c => c ≠ '.') = [] then
    some ((digitsToNat (s.toList.takeWhile (fun c => c ≠ '.')) : ℚ))
  else if ((s.toList.dropWhile (fun c => c ≠ '.')).drop 1).any (fun c => c = '.') then none
  else if s.toList.takeWhile (fun c => c ≠ '.') = [] ∧
      (s.toList.dropWhile (fun c => c ≠ '.')).drop 1 = [] then none
  else some ((digitsToNat (s.toList.takeWhile (fun c => c ≠ '.')) : ℚ) +
    (digitsToNat ((s.toList.dropWhile (fun c => c ≠ '.')).drop 1) : ℚ) /
      10 ^ ((s.toList.dropWhile (fun c => c ≠ '.')).drop 1).length)

/-! ## The sanity clamp on slot values -/

/-- The "handle absurd values" step of `finalize_scores_by_slotting` for
slot `i` (two sequential `if` statements in the source): a question-row
value `≥ 20.0` and a total-row value `> 20.0` are divided by
`10 ** (len(str(int(v))) - 1)`. -/
def clampScore (i num_rows : ℕ) (v : ℚ) : ℚ :=
  let v1 := if 20 ≤ v ∧ i < num_rows - 1 then v / 10 ^ (pyIntDigits v - 1) else v
  if 20 < v1 ∧ i = num_rows - 1 then v1 / 10 ^ (pyIntDigits v1 - 1) else v1

/-! ## Timestamp-mode frame selection (`process_video_benchmarked`) -/

/-- The frame rate actually used by `process_video_benchmarked`:
`cap.get(cv2.CAP_PROP_FPS)`, replaced by 30 when the stream reports 0
or nothing (`if fps == 0 or fps is None: fps = 30`). -/
def effectiveFps (fps : Option ℚ) : ℚ :=
  match fps with
  | none => 30
  | some f => if f = 0 then 30 else f

/-- The timestamp-to-frame-index conversion in the timestamp branch of
`process_video_benchmarked`: `frame_idx = int((timestamp_ms / 1000.0) * fps)`. -/
def targetFrameIndex (timestamp_ms : ℚ) (fps : Option ℚ) : ℤ :=
  ratTrunc (timestamp_ms / 1000 * effectiveFps fps)

/-! ## The geometric outlier filter (`filter_outliers`) -/

/-- A detection row `(x1, y1, x2, y2, confidence, class)` already scaled
back to TableCrop pixel coordinates. -/
structure Det where
  x1 : ℚ
  y1 : ℚ
  x2 : ℚ
  y2 : ℚ
  conf : ℚ
  cls : ℚ
deriving DecidableEq, Repr

/-- The filtering loop of `filter_outliers` (after `scale_coords` has
already mapped the boxes to TableCrop coordinates): keep a detection when
`det[0] < img_w * threshold_ratio` and `det[1] > img_h // (num_rows + 1)`;
when nothing survives the result is the empty list (the code builds an
empty tensor instead of failing). -/
def filter_outliers (dets : List Det) (img_h img_w : ℕ)
    (threshold_ratio : ℚ) (num_rows : ℕ) : List Det :=
  dets.filter (fun d =>
    d.x1 < (img_w : ℚ) * threshold_ratio ∧ ((img_h / (num_rows + 1) : ℕ) : ℚ) < d.y1)

/-! ## Slot assignment in the Score Assembler -/

/-- Slot index of a vertical center in `finalize_scores_by_slotting`
(and in `_find_nearest_digit_slot`): 0 when `slot_height_real == 0`,
otherwise `int(round((y_center - y_min) / slot_height))` clamped to
`[0, num_rows - 1]`. -/
def slotIndexOfY (y y_min slot_height : ℚ) (num_rows : ℕ) : ℕ :=
  if slot_height = 0 then 0
  else (max 0 (min (pyRound ((y - y_min) / slot_height)) ((num_rows : ℤ) - 1))).toNat

/-! ## The Score Assembler (`finalize_scores_by_slotting`) -/

/-- A ClassifiedCharacter as consumed by the Score Assembler:
`{'char': ..., 'x1': ..., 'x2': ..., 'y_center': ..., 'y1': ..., 'y2': ...}`. -/
structure CChar where
  char : Char
  x1 : ℚ
  x2 : ℚ
  y1 : ℚ
  y2 : ℚ
  y_center : ℚ
deriving DecidableEq, Repr

/-- Minimum of a list of rationals (Python `min`, 0 on the empty list,
which the pipeline never takes it on). -/
def listMin : List ℚ → ℚ
  | [] => 0
  | x :: xs => xs.foldl min x

/-- Maximum of a list of rationals (Python `max`, 0 on the empty list,
which the pipeline never takes it on). -/
def listMax : List ℚ → ℚ
  | [] => 0
  | x :: xs => xs.foldl max x

/-- Arithmetic mean of a list of rationals (`np.mean`; 0 on the empty
list, which the pipeline never takes it on since `ℚ` division by zero is
zero). -/
def listMean (xs : List ℚ) : ℚ := xs.sum / (xs.length : ℚ)

/-- One insertion step of a stable ascending insertion sort keyed by
`key`: the new element goes after every element with a key `≤` its own. -/
def insertSortedBy {α : Type} (key : α → ℚ) (c : α) : List α → List α
  | [] => [c]
  | d :: ds => if key d ≤ key c then d :: insertSortedBy key c ds else c :: d :: ds

/-- Stable ascending sort by a rational key, the semantics of Python's
stable `sorted(..., key=...)`. -/
def sortOnKey {α : Type} (key : α → ℚ) (xs : List α) : List α :=
  xs.foldl (fun acc c => insertSortedBy key c acc) []

/-- Group an ascending-sorted list into maximal runs whose consecutive
gaps are `≤ eps`. -/
def groupSorted (eps : ℚ) : List ℚ → List (List ℚ)
  | [] => []
  | x :: xs =>
    match groupSorted eps xs with
    | [] => [[x]]
    | [] :: gs => [x] :: gs
    | (y :: g) :: gs => if y - x ≤ eps then (x :: y :: g) :: gs else [x] :: (y :: g) :: gs

/-- Models `DBSCAN(eps=eps, min_samples=1).fit` on the 1-D vertical
centers followed by taking each cluster's mean: with `min_samples = 1`
every point is a core point, there is no noise label, and the clusters
are exactly the connected components of the "distance ≤ eps" graph,
i.e. the maximal runs of the sorted list with consecutive gaps `≤ eps`.
Only the minimum and maximum of the returned means are used. -/
def dbscanRowCenters (eps : ℚ) (ys : List ℚ) : List ℚ :=
  (groupSorted eps (sortOnKey id ys)).map listMean

/-- The `main_digits` list: characters whose symbol `isdigit()`. -/
def mainDigitsOf (chars : List CChar) : List CChar :=
  chars.filter (fun c => c.char.isDigit)

/-- The `satellite_chars` list: characters whose symbol is `'.'`. -/
def satellitesOf (chars : List CChar) : List CChar :=
  chars.filter (fun c => c.char = '.')

/-- The `(y_min_anchor, y_max_anchor)` pair of
`finalize_scores_by_slotting`: raw min/max of the digit vertical centers,
replaced by the min/max of the DBSCAN stable row centers when positive
character heights exist and clustering produced stable centers
(`eps = 0.75 * mean(char_heights)`). -/
def anchorsOf (chars : List CChar) : ℚ × ℚ :=
  let ys := (mainDigitsOf chars).map (fun c => c.y_center)
  let hs := ((mainDigitsOf chars).map (fun c => c.y2 - c.y1)).filter (fun h => 0 < h)
  if hs = [] then (listMin ys, listMax ys)
  else
    let centers := dbscanRowCenters (listMean hs * (3/4)) ys
    if centers = [] then (listMin ys, listMax ys)
    else (listMin centers, listMax centers)

/-- Slot height `slot_height_real`: `(y_max - y_min) / (num_rows - 1)`, or 0 when the
table height collapses to zero or `num_rows - 1 == 0`. -/
def slotHeightOf (chars : List CChar) (num_rows : ℕ) : ℚ :=
  if (anchorsOf chars).2 - (anchorsOf chars).1 = 0 ∨ num_rows - 1 = 0 then 0
  else ((anchorsOf chars).2 - (anchorsOf chars).1) / ((num_rows - 1 : ℕ) : ℚ)

/-- The horizontal center `(x1 + x2) / 2` used to sort a slot's
characters. -/
def xCenter (c : CChar) : ℚ := (c.x1 + c.x2) / 2

/-- The scan for the nearest main digit in `_find_nearest_digit_slot`:
fold over the digits keeping the smallest distance seen so far
(strictly-smaller updates, so ties keep the earliest digit, as in the
Python loop starting from `min_dist = inf`). Distances are compared as
squared Euclidean distances, equivalent to the `math.sqrt` comparisons
in the source since the square root is strictly monotone. Returns the
`y_center` of the nearest digit. -/
def nearestLoop (dx dy : ℚ) : List CChar → Option (ℚ × ℚ) → Option (ℚ × ℚ)
  | [], acc => acc
  | d :: ds, acc =>
    let dsq := (dx - xCenter d) ^ 2 + (dy - d.y_center) ^ 2
    match acc with
    | none => nearestLoop dx dy ds (some (dsq, d.y_center))
    | some (m, y) =>
      if dsq < m then nearestLoop dx dy ds (some (dsq, d.y_center))
      else nearestLoop dx dy ds (some (m, y))

/-- Source function `_find_nearest_digit_slot`: slot index of the main digit nearest to a
decimal character, computed with the same slot formula and clamp as for
main digits; `-1` when there are no main digits at all. -/
def findNearestDigitSlot (dec : CChar) (main_digits : List CChar)
    (y_min_anchor slot_height_real : ℚ) (num_rows : ℕ) : ℤ :=
  match nearestLoop (xCenter dec) dec.y_center main_digits none with
  | none => -1
  | some (_, y) => (slotIndexOfY y y_min_anchor slot_height_real num_rows : ℤ)

/-- The contents of slot `i`: main digits assigned to slot `i` (in input
order), then satellite decimal points whose nearest digit lies in slot
`i` (in input order) — exactly the append order of the two assignment
loops in the source. -/
def slotCharsOf (chars : List CChar) (num_rows i : ℕ) : List CChar :=
  (mainDigitsOf chars).filter
    (fun c => slotIndexOfY c.y_center (anchorsOf chars).1 (slotHeightOf chars num_rows)
      num_rows = i) ++
  (satellitesOf chars).filter
    (fun c => findNearestDigitSlot c (mainDigitsOf chars) (anchorsOf chars).1
      (slotHeightOf chars num_rows) num_rows = (i : ℤ))

/-- The per-slot score before the sanity clamp: sort the slot's
characters by horizontal center (stable), concatenate their symbols,
sanitize, and parse with `float(...)`; an empty slot, an empty sanitized
string, or an unparsable string yields 0.0. -/
def slotScore (chars : List CChar) : ℚ :=
  if chars = [] then 0
  else if sanitize_score_string
      (String.mk ((sortOnKey xCenter chars).map (fun c => c.char))) = "" then 0
  else (pyFloatOfScore? (sanitize_score_string
    (String.mk ((sortOnKey xCenter chars).map (fun c => c.char))))).getD 0

/-- The key `f"question_{i+1}"`. -/
def qKey (i : ℕ) : String := "question_" ++ toString (i + 1)

/-- The zero-filled output emitted when no main digits were detected. -/
def zeroOutput (num_rows : ℕ) : List (String × ℚ) :=
  (List.range (num_rows - 1)).map (fun i => (qKey i, (0 : ℚ))) ++ [("total_score", 0)]

/-- The emission loop of `finalize_scores_by_slotting`: question keys for
slots `0 .. num_rows - 2` (0.0 for question indices `≥ question_amount`),
then `total_score` from slot `num_rows - 1`. -/
def assembleOutput (num_rows question_amount : ℕ) (score : ℕ → ℚ) : List (String × ℚ) :=
  (List.range (num_rows - 1)).map
    (fun i => (qKey i, if question_amount ≤ i then (0 : ℚ) else score i)) ++
  [("total_score", score (num_rows - 1))]

/-- Source function `finalize_scores_by_slotting`: the Score Assembler. The output dict
is modelled as an association list in insertion order. -/
def finalize_scores_by_slotting (chars : List CChar)
    (question_amount num_rows : ℕ) : List (String × ℚ) :=
  if mainDigitsOf chars = [] then zeroOutput num_rows
  else assembleOutput num_rows question_amount
    (fun i => clampScore i num_rows (slotScore (slotCharsOf chars num_rows i)))

/-- The two-digit example input for the C10 witness: the digits 2 and 5
share a row and assemble to 25, which the clamp corrects to 2.5. -/
def exChars : List CChar :=
  [⟨'2', 0, 1, 0, 1, 1/2⟩, ⟨'5', 1, 2, 0, 1, 1/2⟩]

/-! ## The Statistics Aggregator (`calculate_statistics`) -/

/-- A value stored in a booklet-score dict: a number (Python int/float,
which `isinstance(q_score, (int, float))` accepts) or a non-numeric
value (rejected by that check). -/
inductive PyVal where
  | num (q : ℚ)
  | str (s : String)
deriving DecidableEq, Repr

/-- A booklet-score dict, modelled as an association list in insertion
order (Python dicts have unique keys; all dicts built by the pipeline
do). -/
abbrev Booklet := List (String × PyVal)

/-- Python `d.get(k)` / `d[k]` lookup: the value at the first matching
key. -/
def dictGet : Booklet → String → Option PyVal
  | [], _ => none
  | p :: d, k => if p.1 = k then some p.2 else dictGet d k

/-- Python `d[k] = v`: replace the value at an existing key in place
(position preserved), or append the new pair at the end. -/
def dictSet : Booklet → String → PyVal → Booklet
  | [], k, v => [(k, v)]
  | p :: d, k, v => if p.1 = k then (k, v) :: d else p :: dictSet d k v

/-- The per-question reading of `calculate_statistics`:
`q_score = booklet.get(q_key, 0.0)` followed by the
`isinstance(q_score, (int, float))` check — a missing key contributes
the numeric default 0.0, an existing numeric value contributes itself,
and a non-numeric value is skipped (`none`). -/
def questionValue (b : Booklet) (k : String) : Option ℚ :=
  match dictGet b k with
  | none => some 0
  | some (PyVal.num q) => some q
  | some (PyVal.str _) => none

/-- Running sum `current_booklet_sum`: the sum over `question_1 .. question_qa` of
the numeric question values (skipped non-numeric values add nothing). -/
def bookletSum (b : Booklet) (question_amount : ℕ) : ℚ :=
  ((List.range question_amount).map (fun i => (questionValue b (qKey i)).getD 0)).sum

/-- Contents of `question_scores_map[q_key]` after the main loop: the numeric values
of key `k` across the booklets, in booklet order. -/
def questionList (bs : List Booklet) (k : String) : List ℚ :=
  bs.filterMap (fun b => questionValue b k)

/-- The main loop of `calculate_statistics` as explicit state passing:
returns the post-loop state of the caller's booklet list (each dict's
`total_score` overwritten in place with the recomputed sum) together
with the `total_scores` list. -/
def statsLoop (question_amount : ℕ) : List Booklet → List Booklet × List ℚ
  | [] => ([], [])
  | b :: bs =>
    (dictSet b "total_score" (PyVal.num (bookletSum b question_amount)) ::
        (statsLoop question_amount bs).1,
      bookletSum b question_amount :: (statsLoop question_amount bs).2)

/-- Median as computed by `np.median`: middle element of the sorted list, or the average of
the two middle elements for even length. -/
def npMedian (xs : List ℚ) : ℚ :=
  if (sortOnKey id xs).length % 2 = 1 then
    (sortOnKey id xs).getD ((sortOnKey id xs).length / 2) 0
  else
    ((sortOnKey id xs).getD ((sortOnKey id xs).length / 2 - 1) 0 +
      (sortOnKey id xs).getD ((sortOnKey id xs).length / 2) 0) / 2

/-- The population variance `mean((x - mean(xs))^2)`; `np.std` is its
square root, see `npStdDev`. -/
def npVar (xs : List ℚ) : ℚ := listMean (xs.map (fun x => (x - listMean xs) ^ 2))

/-- One statistics block. `np.std(xs)` is the square root of the stored
population variance `var`, kept squared here so the block stays exactly
computable; `npStdDev var` is the reported `std_dev`. -/
structure StatsBlock where
  count : ℕ
  mean : ℚ
  median : ℚ
  var : ℚ
  min : ℚ
  max : ℚ
deriving DecidableEq, Repr

/-- Standard deviation `np.std` (population) as a real number, applied
to the stored variance. -/
noncomputable def npStdDev (v : ℚ) : ℝ := Real.sqrt (v : ℝ)

/-- The all-zero statistics block written out for empty score lists. -/
def zeroStats : StatsBlock := ⟨0, 0, 0, 0, 0, 0⟩

/-- The `if scores_list: ... else: zeros` statistics computation applied
to one list of scores. -/
def statsOf (xs : List ℚ) : StatsBlock :=
  if xs = [] then zeroStats
  else ⟨xs.length, listMean xs, npMedian xs, npVar xs, listMin xs, listMax xs⟩

/-- The full return value of `calculate_statistics`, together with the
post-call state of the caller's (mutated) booklet list. -/
structure CalcResult where
  booklets : List Booklet
  total : StatsBlock
  question_stats : List (String × StatsBlock)
deriving DecidableEq, Repr

/-- Source function `calculate_statistics`:
recompute every booklet's `total_score` (mutating the dicts), then
compute global statistics over the recomputed totals and per-question
statistics over each question's collected values. -/
def calculate_statistics (bs : List Booklet) (question_amount : ℕ) : CalcResult :=
  { booklets := (statsLoop question_amount bs).1
    total := statsOf (statsLoop question_amount bs).2
    question_stats := (List.range question_amount).map
      (fun i => (qKey i, statsOf (questionList bs (qKey i)))) }

/-- The example booklet of the C7 statistics round-trip. -/
def exBooklet : Booklet :=
  [("question_1", PyVal.num 10), ("question_2", PyVal.num 5), ("total_score", PyVal.num 0)]

/-- A booklet with an extra non-total key, for the C9 witness. -/
def exBooklet2 : Booklet :=
  [("question_1", PyVal.num 10), ("extra", PyVal.str "x"), ("total_score", PyVal.num 0)]

/-! ## Theorems -/

theorem ratTrunc_eq_floor {q : ℚ} (h : 0 ≤ q) : ratTrunc q = ⌊q⌋ := by
  unfold ratTrunc
  rw [if_neg (not_lt.mpr h)]

theorem pyRound_ge_floor (q : ℚ) : ⌊q⌋ ≤ pyRound q := by
  unfold pyRound
  split_ifs <;> omega

theorem pyRound_le_floor_add_one (q : ℚ) : pyRound q ≤ ⌊q⌋ + 1 := by
  unfold pyRound
  split_ifs <;> omega

theorem pyRound_mono {a b : ℚ} (h : a ≤ b) : pyRound a ≤ pyRound b := by
  rcases lt_or_le ⌊a⌋ ⌊b⌋ with hf | hf
  · calc pyRound a ≤ ⌊a⌋ + 1 := pyRound_le_floor_add_one a
      _ ≤ ⌊b⌋ := by omega
      _ ≤ pyRound b := pyRound_ge_floor b
  · have hfe : ⌊a⌋ = ⌊b⌋ := le_antisymm (Int.floor_le_floor h) hf
    have hfr : a - (⌊a⌋ : ℚ) ≤ b - (⌊b⌋ : ℚ) := by
      rw [hfe]
      exact sub_le_sub_right h _
    unfold pyRound
    rw [hfe] at *
    split_ifs <;> first | omega | linarith

theorem one_le_numDigitsAux (fuel n : ℕ) : 1 ≤ numDigitsAux fuel n := by
  cases fuel with
  | zero => simp [numDigitsAux]
  | succ f =>
    unfold numDigitsAux
    split <;> omega

theorem lt_pow_numDigitsAux : ∀ fuel n : ℕ, n ≤ fuel → n < 10 ^ numDigitsAux fuel n := by
  intro fuel
  induction fuel with
  | zero =>
    intro n hn
    have : n = 0 := Nat.le_zero.mp hn
    subst this
    simp [numDigitsAux]
  | succ f ih =>
    intro n hn
    by_cases h : n < 10
    · simp only [numDigitsAux, if_pos h]
      simpa using h
    · have h10 : 10 ≤ n := le_of_not_lt h
      have hdivlt : n / 10 < n := Nat.div_lt_self (by omega) (by omega)
      have hdiv : n / 10 ≤ f := by omega
      have hlt := ih (n / 10) hdiv
      simp only [numDigitsAux, if_neg h]
      rw [pow_succ]
      have hmod : n % 10 + 10 * (n / 10) = n := Nat.mod_add_div n 10
      have hstep : n < (n / 10 + 1) * 10 := by omega
      have hle : n / 10 + 1 ≤ 10 ^ numDigitsAux f (n / 10) := hlt
      calc n < (n / 10 + 1) * 10 := hstep
        _ ≤ 10 ^ numDigitsAux f (n / 10) * 10 := Nat.mul_le_mul_right 10 hle

theorem lt_pow_numDigits (n : ℕ) : n < 10 ^ numDigits n :=
  lt_pow_numDigitsAux n n le_rfl

theorem one_le_numDigits (n : ℕ) : 1 ≤ numDigits n := one_le_numDigitsAux n n

theorem sanitizeLoop_true (cs : List Char) :
    sanitizeLoop cs true = cs.filter Char.isDigit := by
  induction cs with
  | nil => rfl
  | cons c cs ih =>
    by_cases hc : c = '.'
    · subst hc
      simp [sanitizeLoop, ih, List.filter_cons]
    · by_cases hd : c.isDigit
      · simp [sanitizeLoop, hc, hd, ih, List.filter_cons]
      · simp [sanitizeLoop, hc, hd, ih, List.filter_cons]

theorem sanitizeLoop_false (cs : List Char) :
    sanitizeLoop cs false = keepFirstDot cs := by
  induction cs with
  | nil => rfl
  | cons c cs ih =>
    by_cases hc : c = '.'
    · subst hc
      simp [sanitizeLoop, keepFirstDot, sanitizeLoop_true, List.takeWhile, List.dropWhile]
    · by_cases hd : c.isDigit
      · simp [sanitizeLoop, keepFirstDot, hc, hd, List.takeWhile, List.dropWhile,
          List.filter_cons] at ih ⊢
        exact ih
      · simp [sanitizeLoop, keepFirstDot, hc, hd, List.takeWhile, List.dropWhile,
          List.filter_cons] at ih ⊢
        exact ih

theorem pyFloatOfScore?_nonneg {s : String} {q : ℚ}
    (h : pyFloatOfScore? s = some q) : 0 ≤ q := by
  unfold pyFloatOfScore? at h
  split_ifs at h with h1 h2 h3 h4 h5
  · injection h with h
    subst h
    positivity
  · injection h with h
    subst h
    positivity

theorem clamp_div_bounds {v : ℚ} (hv : 20 ≤ v) :
    0 < v / 10 ^ (pyIntDigits v - 1) ∧ v / 10 ^ (pyIntDigits v - 1) < 10 := by
  have hv0 : (0 : ℚ) ≤ v := le_trans (by norm_num) hv
  have htr : ratTrunc v = ⌊v⌋ := ratTrunc_eq_floor hv0
  have hfl0 : 0 ≤ ⌊v⌋ := Int.floor_nonneg.mpr hv0
  set n : ℕ := (ratTrunc v).toNat with hn
  have hcast : (n : ℤ) = ⌊v⌋ := by
    rw [hn, htr]
    exact Int.toNat_of_nonneg hfl0
  set d : ℕ := pyIntDigits v with hd
  have hd1 : 1 ≤ d := one_le_numDigits n
  have hnd : n < 10 ^ d := lt_pow_numDigits n
  have hvlt : v < (10 : ℚ) ^ d := by
    have h1 : v < (⌊v⌋ : ℚ) + 1 := Int.lt_floor_add_one v
    have h2 : (n : ℚ) + 1 ≤ (10 : ℚ) ^ d := by
      exact_mod_cast Nat.succ_le_of_lt hnd
    have h3 : ((⌊v⌋ : ℤ) : ℚ) = (n : ℚ) := by
      exact_mod_cast congrArg (fun z : ℤ => (z : ℚ)) hcast.symm
    calc v < (⌊v⌋ : ℚ) + 1 := h1
      _ = (n : ℚ) + 1 := by rw [h3]
      _ ≤ (10 : ℚ) ^ d := h2
  have hpow_pos : (0 : ℚ) < 10 ^ (d - 1) := by positivity
  constructor
  · positivity
  · rw [div_lt_iff₀ hpow_pos]
    have hsplit : (10 : ℚ) ^ d = 10 ^ (d - 1) * 10 := by
      rw [← pow_succ]
      congr 1
      omega
    calc v < (10 : ℚ) ^ d := hvlt
      _ = 10 ^ (d - 1) * 10 := hsplit
      _ = 10 * 10 ^ (d - 1) := by ring

theorem clampScore_question {i num_rows : ℕ} {v : ℚ}
    (hi : i < num_rows - 1) (hv : 0 ≤ v) :
    0 ≤ clampScore i num_rows v ∧ clampScore i num_rows v < 20 := by
  have hne : ¬ (i = num_rows - 1) := by omega
  unfold clampScore
  by_cases h20 : 20 ≤ v
  · simp only [h20, hi, and_self, if_pos, true_and, hne, and_false, if_false]
    have := clamp_div_bounds h20
    constructor
    · linarith [this.1]
    · linarith [this.2]
  · simp only [h20, false_and, if_false, hne, and_false]
    exact ⟨hv, lt_of_not_le h20⟩

theorem clampScore_total {num_rows : ℕ} {v : ℚ} (hv : 0 ≤ v) :
    0 ≤ clampScore (num_rows - 1) num_rows v ∧
      clampScore (num_rows - 1) num_rows v ≤ 20 := by
  have hni : ¬ (num_rows - 1 < num_rows - 1) := by omega
  unfold clampScore
  simp only [hni, and_false, if_false]
  by_cases h20 : 20 < v
  · simp only [h20, true_and, if_pos]
    have := clamp_div_bounds (le_of_lt h20)
    exact ⟨le_of_lt this.1, by linarith [this.2]⟩
  · simp only [h20, false_and, if_false]
    exact ⟨hv, le_of_not_lt h20⟩

/-- C1: in the sanity clamp, a question-row value (index `< num_rows - 1`)
is divided by `10 ^ (digits_in_integer_part - 1)` as soon as it is `≥ 20.0`,
while the total row (index `= num_rows - 1`) is corrected only when it is
strictly greater than `20.0`: a total of exactly `20.0` is unchanged,
a question value of `25.0` becomes `2.5`, and a total value of `25.0`
becomes `2.5`. -/
theorem claim_C1 (v : ℚ) (num_rows i : ℕ) :
    (i < num_rows - 1 → 20 ≤ v →
      clampScore i num_rows v = v / 10 ^ (pyIntDigits v - 1)) ∧
    (i = num_rows - 1 → 20 < v →
      clampScore i num_rows v = v / 10 ^ (pyIntDigits v - 1)) ∧
    clampScore (num_rows - 1) num_rows 20 = 20 ∧
    (i < num_rows - 1 → clampScore i num_rows 25 = 5 / 2) ∧
    clampScore (num_rows - 1) num_rows 25 = 5 / 2 := by
  have h25 : pyIntDigits (25 : ℚ) = 2 := by decide
  refine ⟨?_, ?_, ?_, ?_, ?_⟩
  · intro hi hv
    have hne : ¬ (i = num_rows - 1) := by omega
    unfold clampScore
    simp only [hv, hi, and_self, if_pos, true_and, hne, and_false, if_false]
  · intro hi hv
    subst hi
    have hni : ¬ (num_rows - 1 < num_rows - 1) := by omega
    unfold clampScore
    simp only [hni, and_false, if_false]
    simp [hv]
  · have hni : ¬ (num_rows - 1 < num_rows - 1) := by omega
    unfold clampScore
    norm_num [hni]
  · intro hi
    have hne : ¬ (i = num_rows - 1) := by omega
    unfold clampScore
    have h20 : (20 : ℚ) ≤ 25 := by norm_num
    simp only [h20, hi, and_self, if_pos, true_and, hne, and_false, if_false, h25]
    norm_num
  · have hni : ¬ (num_rows - 1 < num_rows - 1) := by omega
    unfold clampScore
    simp only [hni, and_false, if_false, h25]
    norm_num

/-- Witness for C1 at concrete inputs: slot 0 of a 9-row table is a
question row, slot 8 is the total row. -/
theorem claim_C1_witness :
    clampScore 0 9 25 = 5 / 2 ∧ clampScore (9 - 1) 9 25 = 5 / 2 ∧
      clampScore (9 - 1) 9 20 = 20 :=
  ⟨(claim_C1 25 9 0).2.2.2.1 (by norm_num),
   (claim_C1 25 9 0).2.2.2.2,
   (claim_C1 20 9 0).2.2.1⟩

/-- C5: `sanitize_score_string` keeps the digit characters in order plus
at most the first decimal point encountered (later points dropped), then
strips leading and trailing decimal points; in particular
`sanitize("1.2.3") = "1.23"`, `sanitize("..5") = "5"` and
`sanitize("") = ""`. -/
theorem claim_C5 :
    (∀ s : String, sanitize_score_string s = sanitizeSpec s) ∧
    sanitize_score_string "1.2.3" = "1.23" ∧
    sanitize_score_string "..5" = "5" ∧
    sanitize_score_string "" = "" := by
  refine ⟨?_, by decide, by decide, by decide⟩
  intro s
  by_cases hs : s = ""
  · subst hs
    decide
  · unfold sanitize_score_string sanitizeSpec
    rw [if_neg hs, sanitizeLoop_false]

/-- Counterexample to C3: at timestamp 50 ms with 30 fps the code decodes
frame `int(1.5) = 1`, while the claimed formula `round(1.5)` gives 2. -/
theorem claim_C3_counterexample :
    targetFrameIndex 50 (some 30) = 1 ∧
      pyRound ((50 : ℚ) / 1000 * effectiveFps (some 30)) = 2 ∧ (1 : ℤ) ≠ 2 := by
  refine ⟨by with_unfolding_all decide, by with_unfolding_all decide, by decide⟩

/-- C3 as amended: in timestamp mode the selected frame index is the
truncation `int(t / 1000 * fps)` (equal to the floor for the nonnegative
timestamps the pipeline receives), not `round`; the frame rate defaults
to 30 when the stream reports 0 or none. -/
theorem claim_C3 (timestamp_ms : ℚ) (h : 0 ≤ timestamp_ms) :
    targetFrameIndex timestamp_ms none = ⌊timestamp_ms / 1000 * 30⌋ ∧
    targetFrameIndex timestamp_ms (some 0) = ⌊timestamp_ms / 1000 * 30⌋ ∧
    (∀ f : ℚ, 0 < f → targetFrameIndex timestamp_ms (some f) = ⌊timestamp_ms / 1000 * f⌋) := by
  refine ⟨?_, ?_, ?_⟩
  · unfold targetFrameIndex effectiveFps
    exact ratTrunc_eq_floor (by positivity)
  · unfold targetFrameIndex effectiveFps
    simp only [if_pos rfl]
    exact ratTrunc_eq_floor (by positivity)
  · intro f hf
    show ratTrunc (timestamp_ms / 1000 * (if f = 0 then 30 else f)) = _
    rw [if_neg (ne_of_gt hf)]
    exact ratTrunc_eq_floor (by positivity)

/-- Witness for C3 (amended) at timestamp 50 ms, default frame rate. -/
theorem claim_C3_witness :
    targetFrameIndex 50 none = ⌊(50 : ℚ) / 1000 * 30⌋ ∧ (⌊(50 : ℚ) / 1000 * 30⌋ = 1) :=
  ⟨(claim_C3 50 (by norm_num)).1, by with_unfolding_all decide⟩

/-- C4: the outlier filter keeps a detection iff it is not discarded by
either rule — discarded when its left edge reaches
`threshold_ratio * crop_width` (default 0.8) or its top edge is at or
above the header line `crop_height / (num_rows + 1)` (floor division in
the code); an all-discarded input yields the empty detection set, not an
error. -/
theorem claim_C4 (dets : List Det) (img_h img_w : ℕ)
    (threshold_ratio : ℚ) (num_rows : ℕ) :
    (∀ d : Det, d ∈ filter_outliers dets img_h img_w threshold_ratio num_rows ↔
      d ∈ dets ∧ ¬ ((img_w : ℚ) * threshold_ratio ≤ d.x1 ∨
        d.y1 ≤ ((img_h / (num_rows + 1) : ℕ) : ℚ))) ∧
    ((∀ d ∈ dets, (img_w : ℚ) * threshold_ratio ≤ d.x1 ∨
        d.y1 ≤ ((img_h / (num_rows + 1) : ℕ) : ℚ)) →
      filter_outliers dets img_h img_w threshold_ratio num_rows = []) := by
  constructor
  · intro d
    unfold filter_outliers
    simp only [List.mem_filter, decide_eq_true_eq, not_or, not_le]
  · intro hall
    unfold filter_outliers
    rw [List.filter_eq_nil_iff]
    intro d hd
    simp only [decide_eq_true_eq, not_and, not_lt]
    intro h1
    rcases hall d hd with h | h
    · exact absurd h1 (not_lt.mpr h)
    · exact h

/-- Witness for C4: with a 100×100 crop, 0.8 ratio and 9 rows, a
detection at `x1 = 90` is discarded and an all-discarded input returns
the empty set. -/
theorem claim_C4_witness :
    filter_outliers [⟨90, 50, 95, 55, 1, 0⟩] 100 100 (4/5) 9 = [] :=
  (claim_C4 [⟨90, 50, 95, 55, 1, 0⟩] 100 100 (4/5) 9).2
    (by intro d hd; simp only [List.mem_singleton] at hd; subst hd; left; norm_num)

/-- C6: slot assignment is monotone in the vertical position — for
vertical centers `a < b` the assigned slots satisfy
`slot(a) ≤ slot(b)` (with both mapping to slot 0 when
`slot_height = 0`), and every assigned slot index is at most
`num_rows - 1`. -/
theorem claim_C6 (y_min slot_height : ℚ) (num_rows : ℕ) :
    (∀ a b : ℚ, 0 ≤ slot_height → a < b →
      slotIndexOfY a y_min slot_height num_rows ≤
        slotIndexOfY b y_min slot_height num_rows) ∧
    (∀ y : ℚ, 1 ≤ num_rows →
      slotIndexOfY y y_min slot_height num_rows ≤ num_rows - 1) := by
  constructor
  · intro a b hsh hab
    unfold slotIndexOfY
    by_cases h0 : slot_height = 0
    · simp [h0]
    · have hpos : 0 < slot_height := lt_of_le_of_ne hsh (Ne.symm h0)
      rw [if_neg h0, if_neg h0]
      apply Int.toNat_le_toNat
      apply max_le_max le_rfl
      apply min_le_min _ le_rfl
      apply pyRound_mono
      have hnum : a - y_min ≤ b - y_min := by linarith
      exact (div_le_div_iff_of_pos_right hpos).mpr hnum
  · intro y h1
    unfold slotIndexOfY
    by_cases h0 : slot_height = 0
    · simp [h0]
    · rw [if_neg h0]
      have hcast : ((num_rows - 1 : ℕ) : ℤ) = (num_rows : ℤ) - 1 := by
        omega
      rw [Int.toNat_le, hcast]
      apply max_le
      · omega
      · exact min_le_right _ _

theorem slotScore_nonneg (chars : List CChar) : 0 ≤ slotScore chars := by
  unfold slotScore
  split_ifs with h1 h2
  · exact le_refl 0
  · exact le_refl 0
  · cases hp : pyFloatOfScore? (sanitize_score_string
      (String.mk ((sortOnKey xCenter chars).map (fun c => c.char)))) with
    | none => simp [Option.getD]
    | some q =>
      simp only [Option.getD_some]
      exact pyFloatOfScore?_nonneg hp

theorem mem_assembleOutput_bounds {num_rows question_amount : ℕ} {score : ℕ → ℚ}
    (hq : ∀ i, i < num_rows - 1 → 0 ≤ score i ∧ score i < 20)
    (ht : 0 ≤ score (num_rows - 1) ∧ score (num_rows - 1) ≤ 20) :
    ∀ p ∈ assembleOutput num_rows question_amount score,
      0 ≤ p.2 ∧ (p.1 ≠ "total_score" → p.2 < 20) ∧ (p.1 = "total_score" → p.2 ≤ 20) := by
  intro p hp
  unfold assembleOutput at hp
  rw [List.mem_append] at hp
  rcases hp with hp | hp
  · rw [List.mem_map] at hp
    obtain ⟨i, hi, rfl⟩ := hp
    rw [List.mem_range] at hi
    by_cases hqa : question_amount ≤ i
    · simp only [if_pos hqa]
      exact ⟨le_refl 0, fun _ => by norm_num, fun _ => by norm_num⟩
    · simp only [if_neg hqa]
      have h := hq i hi
      exact ⟨h.1, fun _ => h.2, fun _ => le_of_lt h.2⟩
  · rw [List.mem_singleton] at hp
    subst hp
    exact ⟨ht.1, fun h => absurd rfl h, fun _ => ht.2⟩

theorem mem_zeroOutput_eq_zero {num_rows : ℕ} :
    ∀ p ∈ zeroOutput num_rows, p.2 = (0 : ℚ) := by
  intro p hp
  unfold zeroOutput at hp
  rw [List.mem_append] at hp
  rcases hp with hp | hp
  · rw [List.mem_map] at hp
    obtain ⟨i, _, rfl⟩ := hp
    rfl
  · rw [List.mem_singleton] at hp
    subst hp
    rfl

theorem finalize_keys (chars : List CChar) (question_amount num_rows : ℕ) :
    (finalize_scores_by_slotting chars question_amount num_rows).map Prod.fst
      = (List.range (num_rows - 1)).map qKey ++ ["total_score"] := by
  unfold finalize_scores_by_slotting
  split_ifs with h
  · simp [zeroOutput, List.map_append, List.map_map, Function.comp]
  · simp [assembleOutput, List.map_append, List.map_map, Function.comp]

/-- Counterexample to C2: with `question_amount = 1` and the default
`num_rows = 9`, the assembler emits the key `question_2` (value 0.0) and
eight question keys in total, not exactly one question key plus
`total_score`. -/
theorem claim_C2_counterexample :
    ("question_2", (0 : ℚ)) ∈ finalize_scores_by_slotting [] 1 9 ∧
    ((finalize_scores_by_slotting [] 1 9).map Prod.fst).length = 9 ∧
    "question_2" ≠ "question_1" ∧ "question_2" ≠ "total_score" := by
  refine ⟨by with_unfolding_all decide, by with_unfolding_all decide, by decide, by decide⟩

/-- C2 as amended: for every `question_amount ≤ num_rows - 1` the emitted
BookletScore has exactly `num_rows - 1` question keys
(`question_1 .. question_{num_rows-1}`, in order) plus one `total_score`
key; question keys at indices `≥ question_amount` are emitted with value
0.0 rather than discarded. -/
theorem claim_C2 (chars : List CChar) (question_amount num_rows : ℕ)
    (_hqa : question_amount ≤ num_rows - 1) :
    ((finalize_scores_by_slotting chars question_amount num_rows).map Prod.fst
      = (List.range (num_rows - 1)).map qKey ++ ["total_score"]) ∧
    (∀ i, question_amount ≤ i → i < num_rows - 1 →
      (qKey i, (0 : ℚ)) ∈ finalize_scores_by_slotting chars question_amount num_rows) := by
  refine ⟨finalize_keys chars question_amount num_rows, ?_⟩
  intro i hi hlt
  unfold finalize_scores_by_slotting
  split_ifs with hmd
  · apply List.mem_append_left
    rw [List.mem_map]
    exact ⟨i, List.mem_range.mpr hlt, rfl⟩
  · apply List.mem_append_left
    rw [List.mem_map]
    refine ⟨i, List.mem_range.mpr hlt, ?_⟩
    rw [if_pos hi]

/-- Witness for C2 (amended) with `question_amount = 2`, `num_rows = 9`,
empty input. -/
theorem claim_C2_witness :
    ((finalize_scores_by_slotting [] 2 9).map Prod.fst
      = (List.range 8).map qKey ++ ["total_score"]) ∧
    (qKey 2, (0 : ℚ)) ∈ finalize_scores_by_slotting [] 2 9 :=
  ⟨(claim_C2 [] 2 9 (by norm_num)).1,
   (claim_C2 [] 2 9 (by norm_num)).2 2 (by norm_num) (by norm_num)⟩

/-- Witness for C6: with `y_min = 0`, `slot_height = 1`, `num_rows = 9`,
centers 0 and 1 map to slots 0 and 1, and every slot index is ≤ 8. -/
theorem claim_C6_witness :
    slotIndexOfY 0 0 1 9 ≤ slotIndexOfY 1 0 1 9 ∧
    slotIndexOfY 1 0 1 9 = 1 ∧
    slotIndexOfY 100 0 1 9 ≤ 9 - 1 :=
  ⟨(claim_C6 0 1 9).1 0 1 (by norm_num) (by norm_num),
   by with_unfolding_all decide,
   (claim_C6 0 1 9).2 100 (by norm_num)⟩

/-- C10: for every input whose symbols are digits or decimal points,
every question value emitted by the Score Assembler lies in `[0, 20)` and
the emitted `total_score` lies in `[0, 20]`; no negative or above-20
value is ever emitted. -/
theorem claim_C10 (chars : List CChar) (question_amount num_rows : ℕ)
    (_hnr : 1 ≤ num_rows)
    (_hchars : ∀ c ∈ chars, c.char.isDigit ∨ c.char = '.') :
    ∀ p ∈ finalize_scores_by_slotting chars question_amount num_rows,
      0 ≤ p.2 ∧ (p.1 ≠ "total_score" → p.2 < 20) ∧ (p.1 = "total_score" → p.2 ≤ 20) := by
  intro p hp
  unfold finalize_scores_by_slotting at hp
  split_ifs at hp with h
  · have hz := mem_zeroOutput_eq_zero p hp
    rw [hz]
    exact ⟨le_refl 0, fun _ => by norm_num, fun _ => by norm_num⟩
  · refine mem_assembleOutput_bounds ?_ ?_ p hp
    · intro i hi
      exact clampScore_question hi (slotScore_nonneg _)
    · exact clampScore_total (slotScore_nonneg _)

/-- Witness for C10 on `exChars`: the emitted `question_1` value 2.5 is
in range. -/
theorem claim_C10_witness :
    ("question_1", (5/2 : ℚ)) ∈ finalize_scores_by_slotting exChars 8 9 ∧
    0 ≤ (5/2 : ℚ) ∧ (5/2 : ℚ) < 20 :=
  ⟨by with_unfolding_all decide,
   (claim_C10 exChars 8 9 (by norm_num) (by decide)
      ("question_1", (5/2 : ℚ)) (by with_unfolding_all decide)).1,
   (claim_C10 exChars 8 9 (by norm_num) (by decide)
      ("question_1", (5/2 : ℚ)) (by with_unfolding_all decide)).2.1 (by decide)⟩

theorem statsLoop_fst (question_amount : ℕ) : ∀ bs : List Booklet,
    (statsLoop question_amount bs).1 =
      bs.map (fun b => dictSet b "total_score" (PyVal.num (bookletSum b question_amount)))
  | [] => rfl
  | b :: bs => by
    simp [statsLoop, statsLoop_fst question_amount bs]

theorem statsLoop_snd (question_amount : ℕ) : ∀ bs : List Booklet,
    (statsLoop question_amount bs).2 = bs.map (fun b => bookletSum b question_amount)
  | [] => rfl
  | b :: bs => by
    simp [statsLoop, statsLoop_snd question_amount bs]

theorem dictGet_dictSet_self : ∀ (d : Booklet) (k : String) (v : PyVal),
    dictGet (dictSet d k v) k = some v := by
  intro d k v
  induction d with
  | nil => simp [dictSet, dictGet]
  | cons p d ih =>
    by_cases h : p.1 = k
    · simp [dictSet, h, dictGet]
    · simp [dictSet, h, dictGet, ih]

theorem dictGet_dictSet_other : ∀ (d : Booklet) (k k' : String) (v : PyVal),
    k' ≠ k → dictGet (dictSet d k v) k' = dictGet d k' := by
  intro d k k' v hk
  induction d with
  | nil =>
    have : ¬ (k = k') := fun h => hk h.symm
    simp [dictSet, dictGet, this]
  | cons p d ih =>
    by_cases h : p.1 = k
    · have h2 : ¬ (k = k') := fun h2 => hk h2.symm
      have h3 : ¬ (p.1 = k') := by
        rw [h]
        exact h2
      simp [dictSet, h, dictGet, h2, h3]
    · by_cases h4 : p.1 = k'
      · simp only [dictSet, dictGet, if_neg h, if_pos h4]
      · simp only [dictSet, dictGet, if_neg h, if_neg h4]
        exact ih

/-- C7: the Statistics Aggregator recomputes every booklet's
`total_score` as the sum of its numeric question values (missing keys
contributing 0.0), overwriting the assembler-produced total, and
computes the global statistics from those recomputed sums; on
`[{question_1: 10, question_2: 5, total_score: 0}]` with
`question_amount = 2` it yields `total_score = 15`, `count = 1`,
`mean = 15`, `std_dev = 0`. -/
theorem claim_C7 :
    (∀ (bs : List Booklet) (question_amount : ℕ),
      (calculate_statistics bs question_amount).total =
        statsOf (bs.map (fun b => bookletSum b question_amount)) ∧
      (calculate_statistics bs question_amount).booklets =
        bs.map (fun b => dictSet b "total_score"
          (PyVal.num (bookletSum b question_amount)))) ∧
    dictGet ((calculate_statistics [exBooklet] 2).booklets.getD 0 []) "total_score"
      = some (PyVal.num 15) ∧
    (calculate_statistics [exBooklet] 2).total.count = 1 ∧
    (calculate_statistics [exBooklet] 2).total.mean = 15 ∧
    npStdDev (calculate_statistics [exBooklet] 2).total.var = 0 := by
  refine ⟨?_, ?_, ?_, ?_, ?_⟩
  · intro bs question_amount
    constructor
    · unfold calculate_statistics
      rw [statsLoop_snd]
    · unfold calculate_statistics
      rw [statsLoop_fst]
  · with_unfolding_all decide
  · with_unfolding_all decide
  · with_unfolding_all decide
  · have hv : (calculate_statistics [exBooklet] 2).total.var = 0 := by
      with_unfolding_all decide
    rw [hv]
    simp [npStdDev]

/-- C8: aggregation over an empty booklet list never fails and returns
an all-zero StatsBlock globally and for each of the `question_amount`
per-question entries (`std_dev = sqrt 0 = 0` included); totality of the
Lean function models the absence of an exception. -/
theorem claim_C8 (question_amount : ℕ) :
    calculate_statistics [] question_amount =
      ⟨[], zeroStats, (List.range question_amount).map (fun i => (qKey i, zeroStats))⟩ ∧
    npStdDev zeroStats.var = 0 := by
  constructor
  · unfold calculate_statistics statsLoop questionList
    simp [statsOf]
  · simp [npStdDev, zeroStats]

/-- C9: `calculate_statistics` mutates its input in place — modelled by
returning the post-call state of the caller's list — so after the call
the list is the input list with each dict's `total_score` overwritten
with the recomputed question sum, while every other key's value is
unchanged. -/
theorem claim_C9 (bs : List Booklet) (question_amount : ℕ) :
    ((calculate_statistics bs question_amount).booklets =
      bs.map (fun b => dictSet b "total_score"
        (PyVal.num (bookletSum b question_amount)))) ∧
    (∀ b : Booklet,
      dictGet (dictSet b "total_score" (PyVal.num (bookletSum b question_amount)))
        "total_score" = some (PyVal.num (bookletSum b question_amount))) ∧
    (∀ (b : Booklet) (k : String), k ≠ "total_score" →
      dictGet (dictSet b "total_score" (PyVal.num (bookletSum b question_amount))) k
        = dictGet b k) := by
  refine ⟨?_, ?_, ?_⟩
  · unfold calculate_statistics
    rw [statsLoop_fst]
  · intro b
    exact dictGet_dictSet_self b "total_score" _
  · intro b k hk
    exact dictGet_dictSet_other b "total_score" k _ hk

/-- Witness for C9 on a concrete booklet: the post-call list is the
updated singleton and the key `extra` is untouched. -/
theorem claim_C9_witness :
    ((calculate_statistics [exBooklet2] 2).booklets =
      [dictSet exBooklet2 "total_score" (PyVal.num (bookletSum exBooklet2 2))]) ∧
    dictGet (dictSet exBooklet2 "total_score" (PyVal.num (bookletSum exBooklet2 2)))
      "extra" = dictGet exBooklet2 "extra" :=
  ⟨by
    have h := (claim_C9 [exBooklet2] 2).1
    simpa using h,
   (claim_C9 [exBooklet2] 2).2.2 exBooklet2 "extra" (by decide)⟩

end VideoPipeline
